import Mathlib

/-!
Verification of `app/services/migration_service.py`.

The service runs two sequential repair passes over a document database:

* `fix_user_admin_fields` backfills the `is_admin` boolean on user records
  that lack it, promoting the first scanned user exactly when no
  administrator pre-exists;
* `ensure_workspace_admins` repoints the `admin_id` of every workspace whose
  administrator reference does not resolve to an existing user, using one
  global administrator looked up before the loop;
* `run_migrations` runs the first pass, then the second, re-raising any
  failure.

Collections are modelled as lists in scan order; MongoDB guarantees that the
`_id` of a document is unique inside a collection, so theorems that depend on
identity-keyed updates assume `Nodup` of the id projection. `datetime.utcnow()`
is modelled by a `now : Nat` parameter supplied per pass. Each pass also
returns the list of `_id`s it wrote (the source logs one line per write and
counts them), and the exception it raises, if any: the `try/except` blocks in
the source log and then bare-`raise`, so the raw data-access exception
propagates unchanged. A data-access failure is injected at a pass's first
database operation, before any write of that pass.
-/

/-- A user document: `_id`, `email`, the optional `is_admin` flag (absent
before the migration), and the `updated_at` timestamp. -/
structure User where
  id : Nat
  email : String
  is_admin : Option Bool
  updated_at : Nat
deriving Repr, DecidableEq

/-- A workspace document: `_id`, `name`, the `admin_id` reference to a user,
and the `updated_at` timestamp. -/
structure Workspace where
  id : Nat
  name : String
  admin_id : Nat
  updated_at : Nat
deriving Repr, DecidableEq

/-- The database: the `users` and `workspaces` collections, each a list in
the order the underlying scan returns. -/
structure DB where
  users : List User
  workspaces : List Workspace
deriving Repr, DecidableEq

/-- An underlying data-access failure (connectivity, timeout, serialization). -/
inductive DBFailure where
  | connectivity
  | timeout
  | serialization
deriving Repr, DecidableEq

/-- An exception escaping a pass. `dbFailure` is the raw data-access
exception. `migrationError` is the wrapper kind the specification describes
("a single kind, MigrationError, wrapping any underlying data-access
failure"); the source defines no such class, so this constructor exists only
to state the comparison with the specification. -/
inductive PyExc where
  | dbFailure : DBFailure → PyExc
  | migrationError : DBFailure → PyExc
deriving Repr, DecidableEq

/-- Whether an optional exception is the wrapper kind from the specification. -/
def isMigrationError : Option PyExc → Bool
  | some (PyExc.migrationError _) => true
  | _ => false

/-- Outcome of one pass: the database afterwards, the `_id`s written (in write
order; the source logs one line per write), and the raised exception if any. -/
structure PassResult where
  db : DB
  written : List Nat
  exc : Option PyExc
deriving Repr, DecidableEq

/-- `db.users.update_one({"_id": uid}, {"$set": {"is_admin": flag,
"updated_at": now}})`: update the first document whose `_id` matches. -/
def update_one_user (users : List User) (uid : Nat) (flag : Bool) (now : Nat) :
    List User :=
  match users with
  | [] => []
  | u :: rest =>
      if u.id = uid then
        { u with is_admin := some flag, updated_at := now } :: rest
      else
        u :: update_one_user rest uid flag now

/-- The `for user in users_without_admin` loop of `fix_user_admin_fields`:
`is_admin = existing_admins == 0` for each pending user, one write per pending
user, and `existing_admins = 1` right after a promotion. Returns the updated
`users` collection and the ids written. -/
def backfillLoop (pending : List User) (existing_admins : Nat)
    (users : List User) (now : Nat) : List User × List Nat :=
  match pending with
  | [] => (users, [])
  | user :: rest =>
      let is_admin := existing_admins == 0
      let users' := update_one_user users user.id is_admin now
      let r := backfillLoop rest (if is_admin then 1 else existing_admins) users' now
      (r.1, user.id :: r.2)

/-- `MigrationService.fix_user_admin_fields`.  Scans
`users.find({"is_admin": {"$exists": False}})`, early-returns when empty,
counts `users.count_documents({"is_admin": True})`, then runs the update
loop. A data-access failure `e` makes the first database operation raise;
the `except` clause logs and bare-`raise`s it, so the raw exception escapes
with no write performed. -/
def fix_user_admin_fields (db : DB) (now : Nat) (fail : Option DBFailure) :
    PassResult :=
  match fail with
  | some e => ⟨db, [], some (PyExc.dbFailure e)⟩
  | none =>
      let users_without_admin := db.users.filter (fun u => u.is_admin.isNone)
      if users_without_admin.isEmpty then ⟨db, [], none⟩
      else
        let existing_admins := db.users.countP (fun u => u.is_admin == some true)
        let r := backfillLoop users_without_admin existing_admins db.users now
        ⟨{ db with users := r.1 }, r.2, none⟩

/-- `db.workspaces.update_one({"_id": wid}, {"$set": {"admin_id": aid,
"updated_at": now}})`: update the first document whose `_id` matches. -/
def update_one_workspace (wss : List Workspace) (wid : Nat) (aid : Nat)
    (now : Nat) : List Workspace :=
  match wss with
  | [] => []
  | w :: rest =>
      if w.id = wid then
        { w with admin_id := aid, updated_at := now } :: rest
      else
        w :: update_one_workspace rest wid aid now

/-- The `for workspace in workspaces` loop of `ensure_workspace_admins`:
look up `users.find_one({"_id": workspace["admin_id"]})` and, when it is
absent, repoint the workspace at `admin_id` and count it. Returns the
updated `workspaces` collection and the ids written. -/
def repairLoop (pending : List Workspace) (admin_id : Nat)
    (users : List User) (wss : List Workspace) (now : Nat) :
    List Workspace × List Nat :=
  match pending with
  | [] => (wss, [])
  | workspace :: rest =>
      match users.find? (fun u => u.id == workspace.admin_id) with
      | some _ => repairLoop rest admin_id users wss now
      | none =>
          let wss' := update_one_workspace wss workspace.id admin_id now
          let r := repairLoop rest admin_id users wss' now
          (r.1, workspace.id :: r.2)

/-- `MigrationService.ensure_workspace_admins`.  Loads all workspaces,
early-returns when there are none, looks up one global administrator with
`users.find_one({"is_admin": True})` (early-returning with a warning when
none exists), then runs the repair loop. The source's `updated_count` is the
length of the returned write list. A data-access failure is handled as in
`fix_user_admin_fields`: logged and re-raised raw. -/
def ensure_workspace_admins (db : DB) (now : Nat) (fail : Option DBFailure) :
    PassResult :=
  match fail with
  | some e => ⟨db, [], some (PyExc.dbFailure e)⟩
  | none =>
      let workspaces := db.workspaces
      if workspaces.isEmpty then ⟨db, [], none⟩
      else
        match db.users.find? (fun u => u.is_admin == some true) with
        | none => ⟨db, [], none⟩
        | some global_admin =>
            let r := repairLoop workspaces global_admin.id db.users db.workspaces now
            ⟨{ db with workspaces := r.1 }, r.2, none⟩

/-- Assignment produced by the backfill loop: for each pending user, in loop
order, the flag value its write stores, keyed by `_id`. Mirrors the updates
of `is_admin` and `existing_admins` in the loop body. -/
def backfillFlags (pending : List User) (existing_admins : Nat) :
    List (Nat × Bool) :=
  match pending with
  | [] => []
  | user :: rest =>
      let is_admin := existing_admins == 0
      (user.id, is_admin) ::
        backfillFlags rest (if is_admin then 1 else existing_admins)

/-- First value associated to a key in an assignment list. -/
def flagFor (flags : List (Nat × Bool)) (uid : Nat) : Option Bool :=
  match flags with
  | [] => none
  | (k, b) :: rest => if uid = k then some b else flagFor rest uid

/-- Apply an assignment list to one user record: rewrite `is_admin` and
`updated_at` when the record's `_id` carries an assignment, else leave the
record alone. -/
def applyFlag (now : Nat) (flags : List (Nat × Bool)) (u : User) : User :=
  match flagFor flags u.id with
  | some b => { u with is_admin := some b, updated_at := now }
  | none => u

/-- `run_migrations`: `fix_user_admin_fields` first, `ensure_workspace_admins`
second; an exception from either pass aborts the sequence and is re-raised to
the caller (the runner's `except` clause logs and bare-`raise`s). Each pass
receives its own timestamp and its own injected-failure slot, so the second
pass can fail after the first succeeded. The returned database is the state
the external store holds when the call finishes. -/
def run_migrations (db : DB) (now1 now2 : Nat)
    (fail1 fail2 : Option DBFailure) : DB × Option PyExc :=
  let r1 := fix_user_admin_fields db now1 fail1
  match r1.exc with
  | some e => (r1.db, some e)
  | none =>
      let r2 := ensure_workspace_admins r1.db now2 fail2
      (r2.db, r2.exc)

/-! ### Generic list helpers -/

/-- Mapping a function that fixes every member of a list is the identity. -/
theorem map_eq_self_of_mem {α : Type} (l : List α) (f : α → α)
    (h : ∀ a ∈ l, f a = a) : l.map f = l := by
  induction l with
  | nil => rfl
  | cons a l ih =>
      simp only [List.map_cons]
      rw [h a (List.mem_cons_self a l), ih (fun b hb => h b (List.mem_cons_of_mem a hb))]

/-! ### Assignment-list lemmas -/

/-- Applying an assignment never changes a record's `_id`. -/
theorem applyFlag_id (now : Nat) (flags : List (Nat × Bool)) (u : User) :
    (applyFlag now flags u).id = u.id := by
  unfold applyFlag
  cases flagFor flags u.id <;> rfl

/-- Applying an assignment never changes a record's `email`. -/
theorem applyFlag_email (now : Nat) (flags : List (Nat × Bool)) (u : User) :
    (applyFlag now flags u).email = u.email := by
  unfold applyFlag
  cases flagFor flags u.id <;> rfl

/-- The empty assignment leaves a record alone. -/
theorem applyFlag_nil (now : Nat) (u : User) : applyFlag now [] u = u := rfl

/-- A key absent from an assignment list gets no value. -/
theorem flagFor_eq_none (flags : List (Nat × Bool)) (uid : Nat)
    (h : uid ∉ flags.map Prod.fst) : flagFor flags uid = none := by
  induction flags with
  | nil => rfl
  | cons kb rest ih =>
      obtain ⟨k, b⟩ := kb
      simp only [List.map_cons, List.mem_cons] at h
      push_neg at h
      simp [flagFor, h.1, ih h.2]

/-- The keys of the backfill assignment are the pending `_id`s, in order. -/
theorem backfillFlags_map_fst (pending : List User) (ea : Nat) :
    (backfillFlags pending ea).map Prod.fst = pending.map User.id := by
  induction pending generalizing ea with
  | nil => rfl
  | cons u rest ih => simp [backfillFlags, ih]

/-- With at least one pre-existing administrator, every pending user is
assigned `false`. -/
theorem backfillFlags_of_ne_zero (pending : List User) (ea : Nat) (h : ea ≠ 0) :
    backfillFlags pending ea = pending.map (fun v => (v.id, false)) := by
  induction pending generalizing ea with
  | nil => rfl
  | cons u rest ih =>
      have hb : (ea == 0) = false := by simpa using h
      simp [backfillFlags, hb, ih ea h]

/-- With no pre-existing administrator, the first pending user is assigned
`true` and every later one `false`. -/
theorem backfillFlags_zero (u0 : User) (rest : List User) :
    backfillFlags (u0 :: rest) 0 =
      (u0.id, true) :: rest.map (fun v => (v.id, false)) := by
  simp [backfillFlags, backfillFlags_of_ne_zero rest 1 one_ne_zero]

/-- Lookup in an all-`false` assignment built from a member's id. -/
theorem flagFor_false_of_mem (l : List User) (uid : Nat)
    (h : uid ∈ l.map User.id) :
    flagFor (l.map (fun v => (v.id, false))) uid = some false := by
  induction l with
  | nil => simp at h
  | cons w l ih =>
      by_cases hw : uid = w.id
      · simp [flagFor, hw]
      · simp only [List.map_cons, List.mem_cons] at h
        rcases h with h | h
        · exact absurd h hw
        · simp [flagFor, hw, ih h]

/-- Lookup in an all-`false` assignment with an absent id. -/
theorem flagFor_false_of_not_mem (l : List User) (uid : Nat)
    (h : uid ∉ l.map User.id) :
    flagFor (l.map (fun v => (v.id, false))) uid = none := by
  apply flagFor_eq_none
  simpa [List.map_map, Function.comp] using h

/-! ### `update_one` lemmas -/

/-- Under unique ids, updating the first matching user is a pointwise map. -/
theorem update_one_user_eq_map (users : List User) (uid : Nat) (flag : Bool)
    (now : Nat) (h : (users.map User.id).Nodup) :
    update_one_user users uid flag now =
      users.map (fun v =>
        if v.id = uid then { v with is_admin := some flag, updated_at := now }
        else v) := by
  induction users with
  | nil => rfl
  | cons u rest ih =>
      simp only [List.map_cons, List.nodup_cons] at h
      by_cases hu : u.id = uid
      · simp only [update_one_user, if_pos hu, List.map_cons]
        refine congrArg _ ?_
        refine (map_eq_self_of_mem rest _ ?_).symm
        intro v hv
        have : v.id ≠ uid := by
          intro hvid
          exact h.1 (hu ▸ hvid ▸ List.mem_map_of_mem User.id hv)
        simp [this]
      · simp only [update_one_user, if_neg hu, List.map_cons]
        exact congrArg _ (ih h.2)

/-- `update_one_user` preserves the `_id` column. -/
theorem update_one_user_map_id (users : List User) (uid : Nat) (flag : Bool)
    (now : Nat) :
    (update_one_user users uid flag now).map User.id = users.map User.id := by
  induction users with
  | nil => rfl
  | cons u rest ih =>
      by_cases h : u.id = uid <;>
        simp [update_one_user, h, ih]

/-- `update_one_user` preserves the `email` column. -/
theorem update_one_user_map_email (users : List User) (uid : Nat) (flag : Bool)
    (now : Nat) :
    (update_one_user users uid flag now).map User.email = users.map User.email := by
  induction users with
  | nil => rfl
  | cons u rest ih =>
      by_cases h : u.id = uid <;>
        simp [update_one_user, h, ih]

/-- Under unique ids, updating the first matching workspace is a pointwise
map. -/
theorem update_one_workspace_eq_map (wss : List Workspace) (wid aid now : Nat)
    (h : (wss.map Workspace.id).Nodup) :
    update_one_workspace wss wid aid now =
      wss.map (fun v =>
        if v.id = wid then { v with admin_id := aid, updated_at := now }
        else v) := by
  induction wss with
  | nil => rfl
  | cons w rest ih =>
      simp only [List.map_cons, List.nodup_cons] at h
      by_cases hw : w.id = wid
      · simp only [update_one_workspace, if_pos hw, List.map_cons]
        refine congrArg _ ?_
        refine (map_eq_self_of_mem rest _ ?_).symm
        intro v hv
        have : v.id ≠ wid := by
          intro hvid
          exact h.1 (hw ▸ hvid ▸ List.mem_map_of_mem Workspace.id hv)
        simp [this]
      · simp only [update_one_workspace, if_neg hw, List.map_cons]
        exact congrArg _ (ih h.2)

/-- `update_one_workspace` preserves the `_id` column. -/
theorem update_one_workspace_map_id (wss : List Workspace) (wid aid now : Nat) :
    (update_one_workspace wss wid aid now).map Workspace.id =
      wss.map Workspace.id := by
  induction wss with
  | nil => rfl
  | cons w rest ih =>
      by_cases h : w.id = wid <;>
        simp [update_one_workspace, h, ih]

/-- `update_one_workspace` preserves the `name` column. -/
theorem update_one_workspace_map_name (wss : List Workspace) (wid aid now : Nat) :
    (update_one_workspace wss wid aid now).map Workspace.name =
      wss.map Workspace.name := by
  induction wss with
  | nil => rfl
  | cons w rest ih =>
      by_cases h : w.id = wid <;>
        simp [update_one_workspace, h, ih]

/-- Unfolding of the backfill assignment on a cons cell. -/
theorem backfillFlags_cons (u : User) (rest : List User) (ea : Nat) :
    backfillFlags (u :: rest) ea =
      (u.id, (ea == 0)) ::
        backfillFlags rest (if (ea == 0) then 1 else ea) := rfl

/-- Unfolding of `applyFlag` on a cons assignment. -/
theorem applyFlag_cons (now k : Nat) (b : Bool) (fr : List (Nat × Bool))
    (u : User) :
    applyFlag now ((k, b) :: fr) u =
      if u.id = k then { u with is_admin := some b, updated_at := now }
      else applyFlag now fr u := by
  by_cases h : u.id = k <;> simp [applyFlag, flagFor, h]

/-- A record whose id carries no assignment is left alone. -/
theorem applyFlag_of_none (now : Nat) (flags : List (Nat × Bool)) (u : User)
    (h : flagFor flags u.id = none) : applyFlag now flags u = u := by
  simp [applyFlag, h]

/-! ### Closed form of the backfill loop -/

/-- The backfill loop writes exactly one document per pending user, in scan
order. -/
theorem backfillLoop_snd (pending : List User) (ea now : Nat)
    (users : List User) :
    (backfillLoop pending ea users now).2 = pending.map User.id := by
  induction pending generalizing ea users with
  | nil => rfl
  | cons u rest ih => simp [backfillLoop, ih]

/-- Under unique ids, the backfill loop equals the pointwise application of
the backfill assignment to the whole collection. -/
theorem backfillLoop_fst (pending : List User) (ea now : Nat)
    (users : List User) (hu : (users.map User.id).Nodup)
    (hp : (pending.map User.id).Nodup) :
    (backfillLoop pending ea users now).1 =
      users.map (applyFlag now (backfillFlags pending ea)) := by
  induction pending generalizing ea users with
  | nil =>
      exact (map_eq_self_of_mem users _ (fun a _ => applyFlag_nil now a)).symm
  | cons u rest ih =>
      simp only [List.map_cons, List.nodup_cons] at hp
      obtain ⟨hid, hrest⟩ := hp
      have hu' : ((update_one_user users u.id (ea == 0) now).map User.id).Nodup := by
        rw [update_one_user_map_id]; exact hu
      have h1 : (backfillLoop (u :: rest) ea users now).1 =
          (backfillLoop rest (if (ea == 0) then 1 else ea)
            (update_one_user users u.id (ea == 0) now) now).1 := rfl
      rw [h1, ih _ _ hu' hrest,
        update_one_user_eq_map users u.id (ea == 0) now hu, List.map_map]
      apply List.map_congr_left
      intro v hv
      simp only [Function.comp_apply, backfillFlags_cons, applyFlag_cons]
      by_cases hveq : v.id = u.id
      · simp only [if_pos hveq]
        apply applyFlag_of_none
        change flagFor _ v.id = none
        rw [hveq]
        exact flagFor_eq_none _ _ (by rw [backfillFlags_map_fst]; exact hid)
      · simp only [if_neg hveq]

/-- The backfill loop never creates or deletes user documents and keeps the
`_id` column pointwise. -/
theorem backfillLoop_fst_map_id (pending : List User) (ea now : Nat)
    (users : List User) :
    ((backfillLoop pending ea users now).1).map User.id = users.map User.id := by
  induction pending generalizing ea users with
  | nil => rfl
  | cons u rest ih =>
      have h1 : (backfillLoop (u :: rest) ea users now).1 =
          (backfillLoop rest (if (ea == 0) then 1 else ea)
            (update_one_user users u.id (ea == 0) now) now).1 := rfl
      rw [h1, ih, update_one_user_map_id]

/-- The backfill loop keeps the `email` column pointwise. -/
theorem backfillLoop_fst_map_email (pending : List User) (ea now : Nat)
    (users : List User) :
    ((backfillLoop pending ea users now).1).map User.email =
      users.map User.email := by
  induction pending generalizing ea users with
  | nil => rfl
  | cons u rest ih =>
      have h1 : (backfillLoop (u :: rest) ea users now).1 =
          (backfillLoop rest (if (ea == 0) then 1 else ea)
            (update_one_user users u.id (ea == 0) now) now).1 := rfl
      rw [h1, ih, update_one_user_map_email]

/-! ### Characterization of the user pass -/

/-- Characterization of one successful run of `fix_user_admin_fields` under
unique `_id`s: the final collection is the pointwise application of the
backfill assignment, one write happens per previously-flagless user, and no
exception is raised. (When no user lacks the flag, both sides are the
early-return no-op.) -/
theorem fix_user_admin_fields_char (db : DB) (now : Nat)
    (hu : (db.users.map User.id).Nodup) :
    fix_user_admin_fields db now none =
      ⟨{ db with users := db.users.map (applyFlag now
          (backfillFlags (db.users.filter (fun u => u.is_admin.isNone))
            (db.users.countP (fun u => u.is_admin == some true)))) },
        (db.users.filter (fun u => u.is_admin.isNone)).map User.id,
        none⟩ := by
  by_cases hemp : (db.users.filter (fun u => u.is_admin.isNone)).isEmpty
  · have hnil : db.users.filter (fun u => u.is_admin.isNone) = [] :=
      List.isEmpty_iff.mp hemp
    simp only [fix_user_admin_fields, hnil, List.isEmpty_nil, if_true,
      backfillFlags, List.map_nil]
    rw [map_eq_self_of_mem db.users _ (fun a _ => applyFlag_nil now a)]
  · have hp : ((db.users.filter (fun u => u.is_admin.isNone)).map User.id).Nodup :=
      hu.sublist ((List.filter_sublist db.users).map User.id)
    simp only [fix_user_admin_fields, if_neg hemp]
    rw [backfillLoop_fst _ _ _ _ hu hp, backfillLoop_snd]

/-! ### Closed form of the repair loop -/

/-- The repair loop writes exactly the scanned workspaces whose administrator
reference does not resolve, in scan order. -/
theorem repairLoop_snd (pending : List Workspace) (aid : Nat)
    (users : List User) (wss : List Workspace) (now : Nat) :
    (repairLoop pending aid users wss now).2 =
      (pending.filter
        (fun p => (users.find? (fun u => u.id == p.admin_id)).isNone)).map
        Workspace.id := by
  induction pending generalizing wss with
  | nil => rfl
  | cons w rest ih =>
      cases hfind : users.find? (fun u => u.id == w.admin_id) with
      | some v => simp [repairLoop, hfind, ih, List.filter_cons]
      | none => simp [repairLoop, hfind, ih, List.filter_cons]

/-- The repair loop never creates or deletes workspace documents and keeps
the `_id` column pointwise. -/
theorem repairLoop_fst_map_id (pending : List Workspace) (aid : Nat)
    (users : List User) (wss : List Workspace) (now : Nat) :
    ((repairLoop pending aid users wss now).1).map Workspace.id =
      wss.map Workspace.id := by
  induction pending generalizing wss with
  | nil => rfl
  | cons w rest ih =>
      cases hfind : users.find? (fun u => u.id == w.admin_id) with
      | some v => simp [repairLoop, hfind, ih]
      | none => simp [repairLoop, hfind, ih, update_one_workspace_map_id]

/-- The repair loop keeps the `name` column pointwise. -/
theorem repairLoop_fst_map_name (pending : List Workspace) (aid : Nat)
    (users : List User) (wss : List Workspace) (now : Nat) :
    ((repairLoop pending aid users wss now).1).map Workspace.name =
      wss.map Workspace.name := by
  induction pending generalizing wss with
  | nil => rfl
  | cons w rest ih =>
      cases hfind : users.find? (fun u => u.id == w.admin_id) with
      | some v => simp [repairLoop, hfind, ih]
      | none => simp [repairLoop, hfind, ih, update_one_workspace_map_name]

/-- Under unique workspace ids, when every pending workspace is a member of
the current collection, the repair loop equals a pointwise map: a workspace
is repointed exactly when it is pending and its administrator reference does
not resolve in `users`. -/
theorem repairLoop_fst (pending : List Workspace) (aid : Nat)
    (users : List User) (wss : List Workspace) (now : Nat)
    (hw : (wss.map Workspace.id).Nodup)
    (hp : (pending.map Workspace.id).Nodup)
    (hsub : ∀ p ∈ pending, p ∈ wss) :
    (repairLoop pending aid users wss now).1 =
      wss.map (fun w =>
        if (pending.any (fun p => p.id == w.id)) &&
            (users.find? (fun u => u.id == w.admin_id)).isNone then
          { w with admin_id := aid, updated_at := now }
        else w) := by
  induction pending generalizing wss with
  | nil =>
      exact (map_eq_self_of_mem wss _ (fun a _ => by simp)).symm
  | cons w rest ih =>
      simp only [List.map_cons, List.nodup_cons] at hp
      obtain ⟨hid, hrest⟩ := hp
      have hwmem : w ∈ wss := hsub w (List.mem_cons_self w rest)
      have hsubrest : ∀ p ∈ rest, p ∈ wss :=
        fun p hp' => hsub p (List.mem_cons_of_mem w hp')
      have hanyrest : ∀ x : Workspace, x.id = w.id →
          rest.any (fun p => p.id == x.id) = false := by
        intro x hx
        rw [List.any_eq_false]
        intro p hp'
        simp only [beq_iff_eq]
        intro hpid
        exact hid (hx ▸ hpid ▸ List.mem_map_of_mem Workspace.id hp')
      cases hfind : users.find? (fun u => u.id == w.admin_id) with
      | some v =>
          have h1 : (repairLoop (w :: rest) aid users wss now).1 =
              (repairLoop rest aid users wss now).1 := by
            simp [repairLoop, hfind]
          rw [h1, ih wss hw hrest hsubrest]
          apply List.map_congr_left
          intro x hx
          by_cases hxw : x.id = w.id
          · have hxeq : x = w :=
              List.inj_on_of_nodup_map hw hx hwmem hxw
            subst hxeq
            simp [hfind, hanyrest x rfl]
          · have hb : (w.id == x.id) = false := by
              simp only [beq_eq_false_iff_ne, ne_eq]
              exact fun h => hxw h.symm
            simp [List.any_cons, hb]
      | none =>
          have h1 : (repairLoop (w :: rest) aid users wss now).1 =
              (repairLoop rest aid users
                (update_one_workspace wss w.id aid now) now).1 := by
            simp [repairLoop, hfind]
          have hwmap := update_one_workspace_eq_map wss w.id aid now hw
          have hw' : (((update_one_workspace wss w.id aid now)).map
              Workspace.id).Nodup := by
            rw [update_one_workspace_map_id]; exact hw
          have hsubrest' : ∀ p ∈ rest, p ∈ update_one_workspace wss w.id aid now := by
            intro p hp'
            rw [hwmap]
            have hpne : p.id ≠ w.id := by
              intro hpid
              exact hid (hpid ▸ List.mem_map_of_mem Workspace.id hp')
            have : (if p.id = w.id then
                { p with admin_id := aid, updated_at := now } else p) = p :=
              if_neg hpne
            exact this ▸ List.mem_map_of_mem _ (hsubrest p hp')
          rw [h1, ih _ hw' hrest hsubrest', hwmap, List.map_map]
          apply List.map_congr_left
          intro x hx
          simp only [Function.comp_apply]
          by_cases hxw : x.id = w.id
          · have hxeq : x = w :=
              List.inj_on_of_nodup_map hw hx hwmem hxw
            subst hxeq
            simp only [if_pos rfl]
            have hany := hanyrest x rfl
            simp [hfind, hany, List.any_cons]
          · have hb : (w.id == x.id) = false := by
              simp only [beq_eq_false_iff_ne, ne_eq]
              exact fun h => hxw h.symm
            simp only [if_neg hxw]
            simp [List.any_cons, hb]

/-! ### Characterization of the workspace pass -/

/-- With no user lacking the flag, `fix_user_admin_fields` is a clean no-op:
state unchanged, zero writes, no exception. -/
theorem fix_user_admin_fields_noop (db : DB) (now : Nat)
    (h : db.users.filter (fun u => u.is_admin.isNone) = []) :
    fix_user_admin_fields db now none = ⟨db, [], none⟩ := by
  simp [fix_user_admin_fields, h]

/-- With no workspaces, `ensure_workspace_admins` is a clean no-op. -/
theorem ensure_workspace_admins_nows (db : DB) (now : Nat)
    (h : db.workspaces = []) :
    ensure_workspace_admins db now none = ⟨db, [], none⟩ := by
  simp [ensure_workspace_admins, h]

/-- With no global administrator, `ensure_workspace_admins` is a clean
no-op. -/
theorem ensure_workspace_admins_noadmin (db : DB) (now : Nat)
    (hga : db.users.find? (fun u => u.is_admin == some true) = none) :
    ensure_workspace_admins db now none = ⟨db, [], none⟩ := by
  by_cases hemp : db.workspaces.isEmpty <;>
    simp [ensure_workspace_admins, hemp, hga]

/-- Characterization of one successful run of `ensure_workspace_admins`
under unique workspace ids, when a global administrator is found: every
workspace whose administrator reference does not resolve is repointed at the
found administrator, one write per such workspace, and no exception is
raised. -/
theorem ensure_workspace_admins_char (db : DB) (now : Nat) (ga : User)
    (hw : (db.workspaces.map Workspace.id).Nodup)
    (hga : db.users.find? (fun u => u.is_admin == some true) = some ga) :
    ensure_workspace_admins db now none =
      ⟨{ db with workspaces := db.workspaces.map (fun w =>
          if (db.users.find? (fun u => u.id == w.admin_id)).isNone then
            { w with admin_id := ga.id, updated_at := now }
          else w) },
        (db.workspaces.filter
          (fun w => (db.users.find? (fun u => u.id == w.admin_id)).isNone)).map
          Workspace.id,
        none⟩ := by
  by_cases hemp : db.workspaces.isEmpty
  · have hnil : db.workspaces = [] := List.isEmpty_iff.mp hemp
    cases db with
    | mk us ws =>
        simp only at hnil
        subst hnil
        simp [ensure_workspace_admins]
  · simp only [ensure_workspace_admins, if_neg hemp, hga]
    rw [repairLoop_fst _ _ _ _ _ hw hw (fun p hp => hp), repairLoop_snd]
    have hmap : db.workspaces.map (fun w =>
        if (db.workspaces.any (fun p => p.id == w.id)) &&
            (db.users.find? (fun u => u.id == w.admin_id)).isNone then
          { w with admin_id := ga.id, updated_at := now }
        else w) =
        db.workspaces.map (fun w =>
          if (db.users.find? (fun u => u.id == w.admin_id)).isNone then
            { w with admin_id := ga.id, updated_at := now }
          else w) := by
      apply List.map_congr_left
      intro w hwmem
      have hany : db.workspaces.any (fun p => p.id == w.id) = true :=
        List.any_eq_true.mpr ⟨w, hwmem, by simp⟩
      rw [hany, Bool.true_and]
    rw [hmap]

/-! ### Frame and exception helpers -/

/-- `countP` only depends on the predicate's values on members. -/
theorem countP_congr_mem {α : Type} (l : List α) (p q : α → Bool)
    (h : ∀ a ∈ l, p a = q a) : l.countP p = l.countP q := by
  induction l with
  | nil => rfl
  | cons a l ih =>
      rw [List.countP_cons, List.countP_cons, h a (List.mem_cons_self a l),
        ih (fun b hb => h b (List.mem_cons_of_mem a hb))]

/-- A key present in an assignment list gets a value. -/
theorem flagFor_isSome_of_mem (flags : List (Nat × Bool)) (uid : Nat)
    (h : uid ∈ flags.map Prod.fst) : (flagFor flags uid).isSome = true := by
  induction flags with
  | nil => simp at h
  | cons kb rest ih =>
      obtain ⟨k, b⟩ := kb
      by_cases hk : uid = k
      · simp [flagFor, hk]
      · simp only [List.map_cons, List.mem_cons] at h
        rcases h with h | h
        · exact absurd h hk
        · simp [flagFor, hk, ih h]

/-- A successful run of the user pass raises no exception. -/
theorem fix_user_admin_fields_exc (db : DB) (now : Nat) :
    (fix_user_admin_fields db now none).exc = none := by
  by_cases hemp : (db.users.filter (fun u => u.is_admin.isNone)).isEmpty <;>
    simp [fix_user_admin_fields, hemp]

/-- The user pass never touches the `_id` column of the users collection. -/
theorem fix_user_admin_fields_users_map_id (db : DB) (now : Nat)
    (fail : Option DBFailure) :
    (fix_user_admin_fields db now fail).db.users.map User.id =
      db.users.map User.id := by
  cases fail with
  | some e => rfl
  | none =>
      by_cases hemp : (db.users.filter (fun u => u.is_admin.isNone)).isEmpty <;>
        simp [fix_user_admin_fields, hemp, backfillLoop_fst_map_id]

/-- The user pass never touches the `email` column. -/
theorem fix_user_admin_fields_users_map_email (db : DB) (now : Nat)
    (fail : Option DBFailure) :
    (fix_user_admin_fields db now fail).db.users.map User.email =
      db.users.map User.email := by
  cases fail with
  | some e => rfl
  | none =>
      by_cases hemp : (db.users.filter (fun u => u.is_admin.isNone)).isEmpty <;>
        simp [fix_user_admin_fields, hemp, backfillLoop_fst_map_email]

/-- The user pass never touches the workspaces collection. -/
theorem fix_user_admin_fields_workspaces (db : DB) (now : Nat)
    (fail : Option DBFailure) :
    (fix_user_admin_fields db now fail).db.workspaces = db.workspaces := by
  cases fail with
  | some e => rfl
  | none =>
      by_cases hemp : (db.users.filter (fun u => u.is_admin.isNone)).isEmpty <;>
        simp [fix_user_admin_fields, hemp]

/-- The workspace pass never touches the users collection. -/
theorem ensure_workspace_admins_users (db : DB) (now : Nat)
    (fail : Option DBFailure) :
    (ensure_workspace_admins db now fail).db.users = db.users := by
  cases fail with
  | some e => rfl
  | none =>
      by_cases hemp : db.workspaces.isEmpty
      · simp [ensure_workspace_admins, hemp]
      · cases hga : db.users.find? (fun u => u.is_admin == some true) with
        | none => simp [ensure_workspace_admins, hemp, hga]
        | some ga => simp [ensure_workspace_admins, hemp, hga]

/-- The workspace pass never touches the `_id` column of the workspaces
collection. -/
theorem ensure_workspace_admins_ws_map_id (db : DB) (now : Nat)
    (fail : Option DBFailure) :
    (ensure_workspace_admins db now fail).db.workspaces.map Workspace.id =
      db.workspaces.map Workspace.id := by
  cases fail with
  | some e => rfl
  | none =>
      by_cases hemp : db.workspaces.isEmpty
      · simp [ensure_workspace_admins, hemp]
      · cases hga : db.users.find? (fun u => u.is_admin == some true) with
        | none => simp [ensure_workspace_admins, hemp, hga]
        | some ga =>
            simp [ensure_workspace_admins, hemp, hga, repairLoop_fst_map_id]

/-- The workspace pass never touches the `name` column. -/
theorem ensure_workspace_admins_ws_map_name (db : DB) (now : Nat)
    (fail : Option DBFailure) :
    (ensure_workspace_admins db now fail).db.workspaces.map Workspace.name =
      db.workspaces.map Workspace.name := by
  cases fail with
  | some e => rfl
  | none =>
      by_cases hemp : db.workspaces.isEmpty
      · simp [ensure_workspace_admins, hemp]
      · cases hga : db.users.find? (fun u => u.is_admin == some true) with
        | none => simp [ensure_workspace_admins, hemp, hga]
        | some ga =>
            simp [ensure_workspace_admins, hemp, hga, repairLoop_fst_map_name]

/-! ### Claim theorems -/

/-- C2, counterexample: at a concrete database, a connectivity failure inside
`fix_user_admin_fields` escapes as the raw `dbFailure` exception and not as a
`migrationError` wrapper, refuting the claim that the pass fails with a
MigrationError wrapping the underlying failure. -/
theorem fix_user_admin_fields_raw_exception_cex :
    (fix_user_admin_fields ⟨[⟨1, "a", none, 0⟩], []⟩ 0
        (some DBFailure.connectivity)).exc =
      some (PyExc.dbFailure DBFailure.connectivity) ∧
    isMigrationError
      (fix_user_admin_fields ⟨[⟨1, "a", none, 0⟩], []⟩ 0
        (some DBFailure.connectivity)).exc = false :=
  ⟨rfl, rfl⟩

/-- C2, amended: when the underlying data access fails inside either pass,
the pass logs and re-raises the raw underlying exception unchanged; no
MigrationError wrapper exists in the code. -/
theorem passes_reraise_raw_exception (db : DB) (now : Nat) (e : DBFailure) :
    (fix_user_admin_fields db now (some e)).exc = some (PyExc.dbFailure e) ∧
    isMigrationError (fix_user_admin_fields db now (some e)).exc = false ∧
    (ensure_workspace_admins db now (some e)).exc = some (PyExc.dbFailure e) ∧
    isMigrationError (ensure_workspace_admins db now (some e)).exc = false :=
  ⟨rfl, rfl, rfl, rfl⟩

/-- C7: neither pass creates or deletes records. A write of the user pass can
change only `is_admin` and `updated_at` (the `_id` and `email` columns are
preserved pointwise, so the collection keeps its length and order), a write
of the workspace pass only `admin_id` and `updated_at` (`_id` and `name`
preserved pointwise), and each pass leaves the other collection entirely
untouched — for every database state and every failure injection. -/
theorem migration_frame (db : DB) (now : Nat) (fail : Option DBFailure) :
    (fix_user_admin_fields db now fail).db.users.map User.id =
      db.users.map User.id ∧
    (fix_user_admin_fields db now fail).db.users.map User.email =
      db.users.map User.email ∧
    (fix_user_admin_fields db now fail).db.workspaces = db.workspaces ∧
    (ensure_workspace_admins db now fail).db.workspaces.map Workspace.id =
      db.workspaces.map Workspace.id ∧
    (ensure_workspace_admins db now fail).db.workspaces.map Workspace.name =
      db.workspaces.map Workspace.name ∧
    (ensure_workspace_admins db now fail).db.users = db.users :=
  ⟨fix_user_admin_fields_users_map_id db now fail,
   fix_user_admin_fields_users_map_email db now fail,
   fix_user_admin_fields_workspaces db now fail,
   ensure_workspace_admins_ws_map_id db now fail,
   ensure_workspace_admins_ws_map_name db now fail,
   ensure_workspace_admins_users db now fail⟩

/-- C8: the three soft conditions — no user lacking the flag, no workspaces,
and no global administrator — each make the respective pass return cleanly,
with the database unchanged, zero writes and no exception raised. -/
theorem soft_conditions_are_not_failures (db : DB) (now : Nat) :
    (db.users.filter (fun u => u.is_admin.isNone) = [] →
      fix_user_admin_fields db now none = ⟨db, [], none⟩) ∧
    (db.workspaces = [] →
      ensure_workspace_admins db now none = ⟨db, [], none⟩) ∧
    (db.users.find? (fun u => u.is_admin == some true) = none →
      ensure_workspace_admins db now none = ⟨db, [], none⟩) :=
  ⟨fix_user_admin_fields_noop db now, ensure_workspace_admins_nows db now,
   ensure_workspace_admins_noadmin db now⟩

/-- C8, witness: an empty database satisfies the first two soft conditions;
a database with one non-administrator user and one workspace satisfies the
third; each instance returns cleanly with zero writes. -/
theorem soft_conditions_witness :
    fix_user_admin_fields ⟨[], []⟩ 0 none = ⟨⟨[], []⟩, [], none⟩ ∧
    ensure_workspace_admins ⟨[], []⟩ 0 none = ⟨⟨[], []⟩, [], none⟩ ∧
    ensure_workspace_admins ⟨[⟨1, "a", some false, 0⟩], [⟨7, "w", 9, 0⟩]⟩ 0 none =
      ⟨⟨[⟨1, "a", some false, 0⟩], [⟨7, "w", 9, 0⟩]⟩, [], none⟩ :=
  ⟨(soft_conditions_are_not_failures ⟨[], []⟩ 0).1 rfl,
   (soft_conditions_are_not_failures ⟨[], []⟩ 0).2.1 rfl,
   (soft_conditions_are_not_failures
     ⟨[⟨1, "a", some false, 0⟩], [⟨7, "w", 9, 0⟩]⟩ 0).2.2 rfl⟩

/-- C9: `run_migrations` runs the user pass first and the workspace pass on
the database the user pass produced; a failure in the first pass propagates
with the initial state kept; and when the first pass succeeds and the second
fails, the caller sees the raw failure while the database keeps the first
pass's effects — no rollback. -/
theorem run_migrations_order_and_no_rollback (db : DB) (now1 now2 : Nat)
    (e : DBFailure) (fail2 : Option DBFailure) :
    run_migrations db now1 now2 none none =
      ((ensure_workspace_admins
          (fix_user_admin_fields db now1 none).db now2 none).db,
        (ensure_workspace_admins
          (fix_user_admin_fields db now1 none).db now2 none).exc) ∧
    run_migrations db now1 now2 (some e) fail2 =
      (db, some (PyExc.dbFailure e)) ∧
    run_migrations db now1 now2 none (some e) =
      ((fix_user_admin_fields db now1 none).db, some (PyExc.dbFailure e)) := by
  refine ⟨?_, rfl, ?_⟩
  · simp [run_migrations, fix_user_admin_fields_exc]
  · simp only [run_migrations, fix_user_admin_fields_exc]
    exact rfl

/-- C1: with unique user `_id`s, zero pre-existing administrators, and the
scan returning `u0` first among the users lacking the flag (`rest` being the
other N−1 in scan order), one run of `fix_user_admin_fields` sets the flag
true on the record carrying `u0`'s id, false on every record carrying the id
of a member of `rest`, and leaves exactly one administrator overall. -/
theorem fix_user_admin_fields_promotes_exactly_first (db : DB) (now : Nat)
    (u0 : User) (rest : List User)
    (hu : (db.users.map User.id).Nodup)
    (hzero : db.users.countP (fun u => u.is_admin == some true) = 0)
    (hpending : db.users.filter (fun u => u.is_admin.isNone) = u0 :: rest) :
    (∀ u' ∈ (fix_user_admin_fields db now none).db.users,
      u'.id = u0.id → u'.is_admin = some true) ∧
    (∀ v ∈ rest, ∀ u' ∈ (fix_user_admin_fields db now none).db.users,
      u'.id = v.id → u'.is_admin = some false) ∧
    (fix_user_admin_fields db now none).db.users.countP
      (fun u => u.is_admin == some true) = 1 := by
  have hchar := fix_user_admin_fields_char db now hu
  rw [hpending, hzero, backfillFlags_zero] at hchar
  have hpnodup : ((u0 :: rest).map User.id).Nodup := by
    have h : ((db.users.filter (fun u => u.is_admin.isNone)).map User.id).Nodup :=
      hu.sublist ((List.filter_sublist db.users).map User.id)
    rwa [hpending] at h
  simp only [List.map_cons, List.nodup_cons] at hpnodup
  obtain ⟨hu0nr, hrestnd⟩ := hpnodup
  have hsubp : ∀ v ∈ u0 :: rest, v ∈ db.users := by
    intro v hv
    rw [← hpending] at hv
    exact List.mem_of_mem_filter hv
  have hu0mem : u0 ∈ db.users := hsubp u0 (List.mem_cons_self u0 rest)
  have hinj := List.inj_on_of_nodup_map hu
  have happly0 : ∀ v : User, v.id = u0.id →
      applyFlag now ((u0.id, true) :: rest.map (fun v => (v.id, false))) v =
        { v with is_admin := some true, updated_at := now } := by
    intro v hv
    rw [applyFlag_cons, if_pos hv]
  have happlyrest : ∀ v : User, v.id ≠ u0.id → v.id ∈ rest.map User.id →
      applyFlag now ((u0.id, true) :: rest.map (fun v => (v.id, false))) v =
        { v with is_admin := some false, updated_at := now } := by
    intro v hvne hvmem
    rw [applyFlag_cons, if_neg hvne]
    simp [applyFlag, flagFor_false_of_mem rest v.id hvmem]
  have happlynone : ∀ v : User, v.id ≠ u0.id → v.id ∉ rest.map User.id →
      applyFlag now ((u0.id, true) :: rest.map (fun v => (v.id, false))) v = v := by
    intro v hvne hvmem
    rw [applyFlag_cons, if_neg hvne]
    exact applyFlag_of_none now _ v (flagFor_false_of_not_mem rest v.id hvmem)
  refine ⟨?_, ?_, ?_⟩
  · intro u' hmem hid
    rw [hchar] at hmem
    replace hmem : u' ∈ db.users.map
        (applyFlag now ((u0.id, true) :: rest.map (fun v => (v.id, false)))) := hmem
    obtain ⟨v, hv, rfl⟩ := List.mem_map.mp hmem
    have hvid : v.id = u0.id := by
      rw [← applyFlag_id now ((u0.id, true) :: rest.map (fun v => (v.id, false))) v]
      exact hid
    rw [happly0 v hvid]
  · intro w hw u' hmem hid
    rw [hchar] at hmem
    replace hmem : u' ∈ db.users.map
        (applyFlag now ((u0.id, true) :: rest.map (fun v => (v.id, false)))) := hmem
    obtain ⟨v, hv, rfl⟩ := List.mem_map.mp hmem
    have hvid : v.id = w.id := by
      rw [← applyFlag_id now ((u0.id, true) :: rest.map (fun v => (v.id, false))) v]
      exact hid
    have hwid : v.id ∈ rest.map User.id := hvid ▸ List.mem_map_of_mem User.id hw
    have hvne : v.id ≠ u0.id := fun h => hu0nr (h ▸ hwid)
    rw [happlyrest v hvne hwid]
  · rw [hchar]
    change (db.users.map
      (applyFlag now ((u0.id, true) :: rest.map (fun v => (v.id, false))))).countP
        (fun u => u.is_admin == some true) = 1
    rw [List.countP_map]
    have hpoint : ∀ v ∈ db.users,
        ((applyFlag now ((u0.id, true) :: rest.map (fun v => (v.id, false)))
          v).is_admin == some true) = (v.id == u0.id) := by
      intro v hv
      by_cases hveq : v.id = u0.id
      · rw [happly0 v hveq]
        simp [hveq]
      · by_cases hvrest : v.id ∈ rest.map User.id
        · rw [happlyrest v hveq hvrest]
          simp [hveq]
        · rw [happlynone v hveq hvrest]
          have hnotadm := List.countP_eq_zero.mp hzero v hv
          simp only [Bool.not_eq_true] at hnotadm
          rw [hnotadm]
          simp [hveq]
    have hcomp := countP_congr_mem db.users
      ((fun u : User => u.is_admin == some true) ∘
        applyFlag now ((u0.id, true) :: rest.map (fun v : User => (v.id, false))))
      (fun v : User => v.id == u0.id) hpoint
    rw [hcomp]
    have hmapc : db.users.countP (fun v => v.id == u0.id) =
        (db.users.map User.id).countP (fun i => i == u0.id) :=
      (List.countP_map (fun i => i == u0.id) User.id db.users).symm
    rw [hmapc, ← List.count_eq_countP]
    exact List.count_eq_one_of_mem hu (List.mem_map_of_mem User.id hu0mem)

/-- C3: with unique user `_id`s and at least one pre-existing administrator,
one run of `fix_user_admin_fields` sets the flag false on the record of every
previously-flagless user, and no user is promoted: any administrator found
afterwards already carried the flag before the run. -/
theorem fix_user_admin_fields_no_promotion (db : DB) (now : Nat)
    (hu : (db.users.map User.id).Nodup)
    (hadm : 0 < db.users.countP (fun u => u.is_admin == some true)) :
    (∀ v ∈ db.users.filter (fun u => u.is_admin.isNone),
      ∀ u' ∈ (fix_user_admin_fields db now none).db.users,
        u'.id = v.id → u'.is_admin = some false) ∧
    (∀ u' ∈ (fix_user_admin_fields db now none).db.users,
      u'.is_admin = some true →
        ∃ u ∈ db.users, u.id = u'.id ∧ u.is_admin = some true) := by
  have hchar := fix_user_admin_fields_char db now hu
  rw [backfillFlags_of_ne_zero _ _ (Nat.pos_iff_ne_zero.mp hadm)] at hchar
  have hinj := List.inj_on_of_nodup_map hu
  constructor
  · intro v hvf u' hmem hid
    rw [hchar] at hmem
    replace hmem : u' ∈ db.users.map (applyFlag now
        ((db.users.filter (fun u => u.is_admin.isNone)).map
          (fun v => (v.id, false)))) := hmem
    obtain ⟨x, hx, rfl⟩ := List.mem_map.mp hmem
    have hxid : x.id = v.id := by
      rw [← applyFlag_id now ((db.users.filter (fun u => u.is_admin.isNone)).map
        (fun v => (v.id, false))) x]
      exact hid
    have hvk : x.id ∈ (db.users.filter (fun u => u.is_admin.isNone)).map User.id :=
      hxid ▸ List.mem_map_of_mem User.id hvf
    simp [applyFlag,
      flagFor_false_of_mem (db.users.filter (fun u => u.is_admin.isNone)) x.id hvk]
  · intro u' hmem htrue
    rw [hchar] at hmem
    replace hmem : u' ∈ db.users.map (applyFlag now
        ((db.users.filter (fun u => u.is_admin.isNone)).map
          (fun v => (v.id, false)))) := hmem
    obtain ⟨x, hx, rfl⟩ := List.mem_map.mp hmem
    cases hflag : flagFor ((db.users.filter (fun u => u.is_admin.isNone)).map
        (fun v => (v.id, false))) x.id with
    | some b =>
        have hb : b = false := by
          by_cases hk : x.id ∈ (db.users.filter (fun u => u.is_admin.isNone)).map User.id
          · have := flagFor_false_of_mem
              (db.users.filter (fun u => u.is_admin.isNone)) x.id hk
            rw [hflag] at this
            exact (Option.some.injEq _ _).mp this.symm |>.symm
          · have := flagFor_false_of_not_mem
              (db.users.filter (fun u => u.is_admin.isNone)) x.id hk
            rw [hflag] at this
            exact absurd this (Option.some_ne_none b)
        subst hb
        rw [show applyFlag now ((db.users.filter (fun u => u.is_admin.isNone)).map
            (fun v => (v.id, false))) x =
            { x with is_admin := some false, updated_at := now } from by
          simp [applyFlag, hflag]] at htrue
        simp at htrue
    | none =>
        rw [applyFlag_of_none _ _ _ hflag] at htrue ⊢
        exact ⟨x, hx, rfl, htrue⟩

/-- C5: with unique user `_id`s, a second run of `fix_user_admin_fields`
right after a first one finds no user lacking the flag and is a clean no-op:
the database is exactly the one the first run produced, with zero writes and
no exception — running twice equals running once. -/
theorem fix_user_admin_fields_idempotent (db : DB) (now1 now2 : Nat)
    (hu : (db.users.map User.id).Nodup) :
    fix_user_admin_fields (fix_user_admin_fields db now1 none).db now2 none =
      ⟨(fix_user_admin_fields db now1 none).db, [], none⟩ := by
  apply fix_user_admin_fields_noop
  rw [List.filter_eq_nil_iff]
  intro u' hmem
  rw [fix_user_admin_fields_char db now1 hu] at hmem
  replace hmem : u' ∈ db.users.map (applyFlag now1
      (backfillFlags (db.users.filter (fun u => u.is_admin.isNone))
        (db.users.countP (fun u => u.is_admin == some true)))) := hmem
  obtain ⟨v, hv, rfl⟩ := List.mem_map.mp hmem
  cases hflag : flagFor (backfillFlags
      (db.users.filter (fun u => u.is_admin.isNone))
      (db.users.countP (fun u => u.is_admin == some true))) v.id with
  | some b => simp [applyFlag, hflag]
  | none =>
      rw [applyFlag_of_none _ _ _ hflag]
      intro hvn
      have hvp : v ∈ db.users.filter (fun u => u.is_admin.isNone) :=
        List.mem_filter.mpr ⟨hv, hvn⟩
      have hkey : v.id ∈ (backfillFlags
          (db.users.filter (fun u => u.is_admin.isNone))
          (db.users.countP (fun u => u.is_admin == some true))).map Prod.fst := by
        rw [backfillFlags_map_fst]
        exact List.mem_map_of_mem User.id hvp
      have hsome := flagFor_isSome_of_mem _ _ hkey
      rw [hflag] at hsome
      simp at hsome

/-- The repair transformer never changes a workspace's `_id`. -/
theorem repair_apply_id (users : List User) (aid now : Nat) (y : Workspace) :
    (if (users.find? (fun u => u.id == y.admin_id)).isNone then
      { y with admin_id := aid, updated_at := now } else y).id = y.id := by
  split <;> rfl

/-- C4: with unique workspace `_id`s, when the pre-pass administrator lookup
finds `ga`, every workspace whose administrator reference does not resolve is
repointed by one run of `ensure_workspace_admins`: the record carrying its id
afterwards references exactly `ga.id`, and that reference resolves to an
existing user. -/
theorem ensure_workspace_admins_repairs_dangling (db : DB) (now : Nat)
    (ga : User) (w : Workspace)
    (hw : (db.workspaces.map Workspace.id).Nodup)
    (hga : db.users.find? (fun u => u.is_admin == some true) = some ga)
    (hmem : w ∈ db.workspaces)
    (hdangling : db.users.find? (fun u => u.id == w.admin_id) = none) :
    ∀ w' ∈ (ensure_workspace_admins db now none).db.workspaces, w'.id = w.id →
      w'.admin_id = ga.id ∧
      (db.users.find? (fun u => u.id == w'.admin_id)).isSome = true := by
  have hchar := ensure_workspace_admins_char db now ga hw hga
  have hinj := List.inj_on_of_nodup_map hw
  intro w' hmem' hid'
  rw [hchar] at hmem'
  replace hmem' : w' ∈ db.workspaces.map (fun x =>
      if (db.users.find? (fun u => u.id == x.admin_id)).isNone then
        { x with admin_id := ga.id, updated_at := now }
      else x) := hmem'
  obtain ⟨x, hx, rfl⟩ := List.mem_map.mp hmem'
  rw [repair_apply_id db.users ga.id now x] at hid'
  have hxeq : x = w := hinj hx hmem hid'
  subst hxeq
  rw [if_pos (by rw [hdangling]; rfl)]
  refine ⟨rfl, ?_⟩
  exact List.find?_isSome.mpr ⟨ga, List.mem_of_find?_eq_some hga, by simp⟩

/-- C6: with unique workspace `_id`s, a workspace whose administrator
reference already resolves is left completely untouched by one run of
`ensure_workspace_admins` — the record carrying its id afterwards is the very
same record (same reference, same timestamp), and no write is issued for
it. -/
theorem ensure_workspace_admins_skips_resolved (db : DB) (now : Nat)
    (w : Workspace)
    (hw : (db.workspaces.map Workspace.id).Nodup)
    (hmem : w ∈ db.workspaces)
    (hres : (db.users.find? (fun u => u.id == w.admin_id)).isSome = true) :
    (∀ w' ∈ (ensure_workspace_admins db now none).db.workspaces,
      w'.id = w.id → w' = w) ∧
    w.id ∉ (ensure_workspace_admins db now none).written := by
  have hinj := List.inj_on_of_nodup_map hw
  obtain ⟨adm, hadm⟩ := Option.isSome_iff_exists.mp hres
  cases hga : db.users.find? (fun u => u.is_admin == some true) with
  | none =>
      rw [ensure_workspace_admins_noadmin db now hga]
      constructor
      · intro w' hmem' hid'
        exact hinj hmem' hmem hid'
      · simp
  | some ga =>
      have hchar := ensure_workspace_admins_char db now ga hw hga
      rw [hchar]
      constructor
      · intro w' hmem' hid'
        replace hmem' : w' ∈ db.workspaces.map (fun x =>
            if (db.users.find? (fun u => u.id == x.admin_id)).isNone then
              { x with admin_id := ga.id, updated_at := now }
            else x) := hmem'
        obtain ⟨x, hx, rfl⟩ := List.mem_map.mp hmem'
        rw [repair_apply_id db.users ga.id now x] at hid'
        have hxeq : x = w := hinj hx hmem hid'
        subst hxeq
        rw [hadm]
        rfl
      · intro hbad
        replace hbad : w.id ∈ (db.workspaces.filter (fun p =>
            (db.users.find? (fun u => u.id == p.admin_id)).isNone)).map
              Workspace.id := hbad
        obtain ⟨p, hp, hpid⟩ := List.mem_map.mp hbad
        have hpmem := List.mem_of_mem_filter hp
        have hpcond := (List.mem_filter.mp hp).2
        have hpeq : p = w := hinj hpmem hmem hpid
        rw [hpeq, hadm] at hpcond
        simp at hpcond

/-- C10: with unique workspace `_id`s, when the single pre-loop lookup finds
the administrator `ga`, every workspace written by one run of
`ensure_workspace_admins` ends up referencing the same id, `ga.id` — even
when several users carry the administrator flag. -/
theorem ensure_workspace_admins_single_target (db : DB) (now : Nat) (ga : User)
    (hw : (db.workspaces.map Workspace.id).Nodup)
    (hga : db.users.find? (fun u => u.is_admin == some true) = some ga) :
    ∀ w' ∈ (ensure_workspace_admins db now none).db.workspaces,
      w'.id ∈ (ensure_workspace_admins db now none).written →
        w'.admin_id = ga.id := by
  have hchar := ensure_workspace_admins_char db now ga hw hga
  have hinj := List.inj_on_of_nodup_map hw
  intro w' hmem' hwr
  rw [hchar] at hmem' hwr
  replace hmem' : w' ∈ db.workspaces.map (fun x =>
      if (db.users.find? (fun u => u.id == x.admin_id)).isNone then
        { x with admin_id := ga.id, updated_at := now }
      else x) := hmem'
  obtain ⟨x, hx, rfl⟩ := List.mem_map.mp hmem'
  replace hwr : (if (db.users.find? (fun u => u.id == x.admin_id)).isNone then
      { x with admin_id := ga.id, updated_at := now }
    else x).id ∈ (db.workspaces.filter (fun p =>
      (db.users.find? (fun u => u.id == p.admin_id)).isNone)).map
        Workspace.id := hwr
  rw [repair_apply_id db.users ga.id now x] at hwr
  obtain ⟨p, hp, hpid⟩ := List.mem_map.mp hwr
  have hpmem := List.mem_of_mem_filter hp
  have hpcond := (List.mem_filter.mp hp).2
  have hpeq : p = x := hinj hpmem hx hpid
  rw [hpeq] at hpcond
  rw [if_pos hpcond]

/-- C1, witness: three flagless users, no pre-existing administrator — after
one run exactly one administrator exists in the collection. -/
theorem fix_user_admin_fields_promotes_exactly_first_witness :
    (fix_user_admin_fields ⟨[⟨1, "a", none, 0⟩, ⟨2, "b", none, 0⟩,
        ⟨3, "c", none, 0⟩], []⟩ 5 none).db.users.countP
      (fun u => u.is_admin == some true) = 1 :=
  (fix_user_admin_fields_promotes_exactly_first
    ⟨[⟨1, "a", none, 0⟩, ⟨2, "b", none, 0⟩, ⟨3, "c", none, 0⟩], []⟩ 5
    ⟨1, "a", none, 0⟩ [⟨2, "b", none, 0⟩, ⟨3, "c", none, 0⟩]
    (by decide) (by decide) (by decide)).2.2

/-- C3, witness: one pre-existing administrator and one flagless user — the
flagless user's record ends up with the flag set false. -/
theorem fix_user_admin_fields_no_promotion_witness :
    (⟨2, "b", some false, 5⟩ : User).is_admin = some false :=
  (fix_user_admin_fields_no_promotion
    ⟨[⟨1, "a", some true, 0⟩, ⟨2, "b", none, 0⟩], []⟩ 5
    (by decide) (by decide)).1
    ⟨2, "b", none, 0⟩ (by decide)
    ⟨2, "b", some false, 5⟩ (by decide) rfl

/-- C5, witness: two flagless users — a second run right after the first is
the identity with zero writes and no exception. -/
theorem fix_user_admin_fields_idempotent_witness :
    fix_user_admin_fields
        (fix_user_admin_fields
          ⟨[⟨1, "a", none, 0⟩, ⟨2, "b", none, 0⟩], []⟩ 3 none).db 7 none =
      ⟨(fix_user_admin_fields
          ⟨[⟨1, "a", none, 0⟩, ⟨2, "b", none, 0⟩], []⟩ 3 none).db, [], none⟩ :=
  fix_user_admin_fields_idempotent
    ⟨[⟨1, "a", none, 0⟩, ⟨2, "b", none, 0⟩], []⟩ 3 7 (by decide)

/-- C4, witness: one administrator and one dangling workspace — the repaired
record references the administrator and the reference resolves. -/
theorem ensure_workspace_admins_repairs_dangling_witness :
    (⟨10, "w", 1, 7⟩ : Workspace).admin_id = (⟨1, "a", some true, 0⟩ : User).id ∧
    ((⟨[⟨1, "a", some true, 0⟩], [⟨10, "w", 99, 0⟩]⟩ : DB).users.find?
      (fun u => u.id == (⟨10, "w", 1, 7⟩ : Workspace).admin_id)).isSome = true :=
  ensure_workspace_admins_repairs_dangling
    ⟨[⟨1, "a", some true, 0⟩], [⟨10, "w", 99, 0⟩]⟩ 7
    ⟨1, "a", some true, 0⟩ ⟨10, "w", 99, 0⟩
    (by decide) (by decide) (by decide) (by decide)
    ⟨10, "w", 1, 7⟩ (by decide) rfl

/-- C6, witness: a workspace whose reference resolves comes out as the very
same record and its id is absent from the write log. -/
theorem ensure_workspace_admins_skips_resolved_witness :
    (⟨10, "w", 1, 3⟩ : Workspace) = ⟨10, "w", 1, 3⟩ ∧
    (10 : Nat) ∉ (ensure_workspace_admins
      ⟨[⟨1, "a", some true, 0⟩], [⟨10, "w", 1, 3⟩]⟩ 9 none).written :=
  ⟨(ensure_workspace_admins_skips_resolved
      ⟨[⟨1, "a", some true, 0⟩], [⟨10, "w", 1, 3⟩]⟩ 9 ⟨10, "w", 1, 3⟩
      (by decide) (by decide) (by decide)).1
      ⟨10, "w", 1, 3⟩ (by decide) rfl,
   (ensure_workspace_admins_skips_resolved
      ⟨[⟨1, "a", some true, 0⟩], [⟨10, "w", 1, 3⟩]⟩ 9 ⟨10, "w", 1, 3⟩
      (by decide) (by decide) (by decide)).2⟩

/-- C10, witness: two administrators and two dangling workspaces — both
repaired records reference the same administrator, the one the single
pre-loop lookup found. -/
theorem ensure_workspace_admins_single_target_witness :
    (⟨10, "w", 1, 7⟩ : Workspace).admin_id = (⟨1, "a", some true, 0⟩ : User).id ∧
    (⟨11, "v", 1, 7⟩ : Workspace).admin_id = (⟨1, "a", some true, 0⟩ : User).id :=
  ⟨ensure_workspace_admins_single_target
      ⟨[⟨1, "a", some true, 0⟩, ⟨2, "b", some true, 0⟩],
        [⟨10, "w", 99, 0⟩, ⟨11, "v", 98, 0⟩]⟩ 7 ⟨1, "a", some true, 0⟩
      (by decide) (by decide) ⟨10, "w", 1, 7⟩ (by decide) (by decide),
   ensure_workspace_admins_single_target
      ⟨[⟨1, "a", some true, 0⟩, ⟨2, "b", some true, 0⟩],
        [⟨10, "w", 99, 0⟩, ⟨11, "v", 98, 0⟩]⟩ 7 ⟨1, "a", some true, 0⟩
      (by decide) (by decide) ⟨11, "v", 1, 7⟩ (by decide) (by decide)⟩
